import Mathlib

/-!
# Dialogflow request processor: the value unwrapper and `processNLP`

A shallow embedding of `main.go`: the protobuf `structpb.Value` tagged union,
`extractDialogflowEntities` (the recursive unwrapper) and
`DialogflowProcessor.processNLP` (request construction, intent fields and the
entity map), followed by the theorems about them.

Conventions of the embedding.

* A Go `string` is a Lean `String`; `fmt.Sprintf("%s%s", a, b)` is `a ++ b`.
* A `float64` is its IEEE-754 bit pattern (a `Nat`, read modulo `2 ^ 64`);
  `strconv.FormatFloat(x, 'f', prec, 64)` is computed exactly from the bits.
* A Go `map[string]T` that is ranged over is the list of its entries in the
  order the `range` loop visits them. Go leaves that order unspecified, so a
  statement "for every iteration order" quantifies over these lists; the keys of
  a map are distinct, which is the hypothesis `Nodup` on the keys.
* A run-time panic is an explicit `Fault`, results are `Except Fault _`.
* Writes to standard output (`fmt.Printf`) have no effect on any result and are
  left out.
-/

namespace Dialogflow

/-! ## Numbers -/

/-- A Go `float64`, as the 64 bits of its IEEE-754 binary64 encoding
(`bits` is read modulo `2 ^ 64`). -/
structure Float64 where
  bits : Nat

/-- A Go `float32`, as the 32 bits of its IEEE-754 binary32 encoding. -/
structure Float32 where
  bits : Nat
deriving DecidableEq

/-- The zero value of the `float32` type (`+0`). -/
def Float32.zero : Float32 := ⟨0⟩

/-- The zero value of the `float64` type (`+0`), what the getters of
`structpb.Value` return for a value of another kind. -/
def Float64.zero : Float64 := ⟨0⟩

/-- Sign bit of a `float64`. -/
def Float64.signBit (x : Float64) : Bool := decide (x.bits % 2 ^ 64 / 2 ^ 63 = 1)

/-- Biased exponent field (11 bits) of a `float64`. -/
def Float64.biasedExp (x : Float64) : Nat := x.bits / 2 ^ 52 % 2048

/-- Fraction field (52 bits) of a `float64`. -/
def Float64.fraction (x : Float64) : Nat := x.bits % 2 ^ 52

/-- The decimal digit `d % 10` as a character. -/
def digitChar (d : Nat) : Char :=
  match d % 10 with
  | 0 => '0' | 1 => '1' | 2 => '2' | 3 => '3' | 4 => '4'
  | 5 => '5' | 6 => '6' | 7 => '7' | 8 => '8' | _ => '9'

/-- Decimal digits of `n`, most significant first, in front of `acc`
(`fuel` bounds the number of digits produced). -/
def decimalDigits : Nat → Nat → List Char → List Char
  | 0, _, acc => acc
  | fuel + 1, n, acc =>
    if n < 10 then digitChar n :: acc
    else decimalDigits fuel (n / 10) (digitChar n :: acc)

/-- The last `k` decimal digits of `n`, most significant first, padded with
zeros on the left, in front of `acc`. -/
def paddedDigits : Nat → Nat → List Char → List Char
  | 0, _, acc => acc
  | k + 1, n, acc => paddedDigits k (n / 10) (digitChar n :: acc)

/-- The magnitude of a finite `float64` times `10 ^ prec`, rounded to the nearest
integer, ties to even: the digits `strconv` keeps for the `'f'` format (its
decimal conversion is exact and `decimal.Round` rounds half to even). -/
def Float64.scaledMagnitude (x : Float64) (prec : Nat) : Nat :=
  let m := if x.biasedExp = 0 then x.fraction else x.fraction + 2 ^ 52
  let e := if x.biasedExp = 0 then 1 else x.biasedExp
  -- the magnitude is m * 2 ^ (e - 1075)
  let num := m * 10 ^ prec * 2 ^ (e - 1075)
  let den := 2 ^ (1075 - e)
  let q := num / den
  let r := num % den
  if 2 * r > den ∨ (2 * r = den ∧ q % 2 = 1) then q + 1 else q

/-- Go `strconv.FormatFloat(x, 'f', prec, 64)` for `prec ≥ 0`: fixed-point
notation with `prec` digits after the decimal point, no exponent. -/
def FormatFloat (x : Float64) (prec : Nat) : String :=
  if x.biasedExp = 2047 then
    if x.fraction ≠ 0 then "NaN" else if x.signBit then "-Inf" else "+Inf"
  else
    let q := x.scaledMagnitude prec
    let intPart := q / 10 ^ prec
    String.mk ((if x.signBit then ['-'] else []) ++
      decimalDigits 400 intPart
        (if prec = 0 then [] else '.' :: paddedDigits prec (q % 10 ^ prec) []))

/-- Go `strconv.FormatBool`. -/
def FormatBool (b : Bool) : String := if b then "true" else "false"

/-! ## `structpb.Value` -/

/-- The protobuf `structpb.Value`: a tagged union (`Kind` is a oneof). A
`structValue` carries the entries of its `Fields` map in the order a `range`
loop visits them. -/
inductive Value where
  /-- No variant set (`Kind == nil`). A nil `*Value` behaves the same way in every
  getter used here (they are all nil-safe). -/
  | kindNil : Value
  /-- Variant `Value_NullValue`. -/
  | nullValue : Value
  /-- Variant `Value_NumberValue`. -/
  | numberValue : Float64 → Value
  /-- Variant `Value_StringValue`. -/
  | stringValue : String → Value
  /-- Variant `Value_BoolValue`. -/
  | boolValue : Bool → Value
  /-- Variant `Value_StructValue`; a nil `*Struct` has no fields, as the empty list. -/
  | structValue : List (String × Value) → Value
  /-- Variant `Value_ListValue`; a nil `*ListValue` has no values, as the empty list. -/
  | listValue : List Value → Value

/-- Go `(*Value).GetNumberValue`: the number of a number value, `0` otherwise. -/
def Value.GetNumberValue : Value → Float64
  | .numberValue x => x
  | _ => Float64.zero

/-- Go `(*Value).GetStringValue`: the string of a string value, `""` otherwise. -/
def Value.GetStringValue : Value → String
  | .stringValue s => s
  | _ => ""

/-- Run-time failures of the program. -/
inductive Fault where
  /-- Go panic `index out of range`. -/
  | indexOutOfRange : Fault
  /-- Go panic `nil pointer dereference`. -/
  | nilDereference : Fault
  /-- Modelled from the spec: `utils.MyLogFatal` (package `chatbot-core/core/utils`,
  not among the sources) logs the error and terminates the process (§4.2 step 4).
  The fault records the format string and the arguments of the call. -/
  | logFatal : String → List String → Fault
deriving DecidableEq

/-! ## The value unwrapper -/

/-- One iteration of the `for key, value := range fields` loop of
`extractDialogflowEntities`, on the accumulator `extractedEntity`. -/
def structStep (extractedEntity : String) (entry : String × Value) : String :=
  let key := entry.1
  let value := entry.2
  let extractedEntity :=
    if key = "amount" then extractedEntity ++ FormatFloat value.GetNumberValue 6
    else extractedEntity
  let extractedEntity :=
    if key = "unit" then extractedEntity ++ value.GetStringValue else extractedEntity
  let extractedEntity :=
    if key = "date_time" then extractedEntity ++ value.GetStringValue else extractedEntity
  extractedEntity

/-- Go `extractDialogflowEntities`. The list case indexes element `0` without a
length check (the check `len > 1` above it has an empty body). -/
def extractDialogflowEntities : Value → Except Fault String
  | .stringValue s => .ok s
  | .numberValue x => .ok (FormatFloat x 6)
  | .boolValue b => .ok (FormatBool b)
  | .structValue fields => .ok (fields.foldl structStep "")
  | .listValue [] => .error .indexOutOfRange
  | .listValue (first :: _) => extractDialogflowEntities first
  | .nullValue => .ok ""
  | .kindNil => .ok ""

/-! ## The request processor -/

/-- The fields of `dialogflowpb.DetectIntentRequest` that `processNLP` sets. -/
structure DetectIntentRequest where
  /-- Field `Session`. -/
  Session : String
  /-- Field `QueryInput.Text.Text`. -/
  Text : String
  /-- Field `QueryInput.Text.LanguageCode`. -/
  LanguageCode : String
  /-- Field `QueryParams.TimeZone`. -/
  TimeZone : String
deriving DecidableEq

/-- The part of `dialogflowpb.Intent` that is read. -/
structure Intent where
  DisplayName : String

/-- The fields of `dialogflowpb.QueryResult` that are read. `Intent` and
`Parameters` are pointers, `none` is nil; `Parameters` holds the entries of the
`Fields` map of the `structpb.Struct` in iteration order. -/
structure QueryResult where
  Intent : Option Intent
  IntentDetectionConfidence : Float32
  Parameters : Option (List (String × Value))

/-- The part of `dialogflowpb.DetectIntentResponse` that is read; `none` is a nil
`QueryResult`. -/
structure DetectIntentResponse where
  QueryResult : Option QueryResult

/-- Go `DialogflowProcessor`. The session client is the remote service: what
`DetectIntent` answers to a request, an error message or a response (the
context `ctx` plays no part). -/
structure DialogflowProcessor where
  projectID : String
  authJSONFilePath : String
  lang : String
  timeZone : String
  sessionClient : DetectIntentRequest → Except String DetectIntentResponse

/-- Go `NLPResponse`. `Entities` is a `map[string]string`: `none` is the nil map,
`some m` a map with the entries `m` (distinct keys). -/
structure NLPResponse where
  Intent : String
  Confidence : Float32
  Entities : Option (List (String × String))
deriving DecidableEq

/-- Go map assignment `m[k] = v` on the entries of a non-nil map. -/
def mapAssign (m : List (String × String)) (k v : String) : List (String × String) :=
  (k, v) :: m.filter (fun e => decide (e.1 ≠ k))

/-- Go map read `m[k]` with presence (`v, ok := m[k]`). -/
def mapLookup (m : List (String × String)) (k : String) : Option String :=
  (m.find? (fun e => decide (e.1 = k))).map Prod.snd

/-- What one call of `processNLP` does: the request it passes to `DetectIntent`
and how it ends. -/
structure Call where
  request : DetectIntentRequest
  result : Except Fault NLPResponse

/-- Go `(*Struct).GetFields` on a possibly nil struct. -/
def GetFields (s : Option (List (String × Value))) : List (String × Value) :=
  match s with
  | some fields => fields
  | none => []

/-- Go `DialogflowProcessor.processNLP`. `float32(_)` of the confidence is the
identity, the field is a `float32` already. `utils.MyLogFatal` ends the
process. -/
def processNLP (dp : DialogflowProcessor) (rawMessage username : String) : Call :=
  let sessionID := username
  let request : DetectIntentRequest :=
    { Session := "projects/" ++ dp.projectID ++ "/agent/sessions/" ++ sessionID
      Text := rawMessage
      LanguageCode := dp.lang
      TimeZone := dp.timeZone }
  { request := request
    result :=
      match dp.sessionClient request with
      | .error err => .error (.logFatal "Error in communication with Dialogflow %s" [err])
      | .ok response =>
        match response.QueryResult with
        | none => .error .nilDereference
        | some queryResult =>
          let r : NLPResponse := { Intent := "", Confidence := Float32.zero, Entities := none }
          let r :=
            match queryResult.Intent with
            | some intent =>
              { r with Intent := intent.DisplayName
                       Confidence := queryResult.IntentDetectionConfidence }
            | none => r
          let entities : List (String × String) := []
          let params := GetFields queryResult.Parameters
          if params.length > 0 then do
            let entities ← params.foldlM
              (fun entities param => do
                let extractedValue ← extractDialogflowEntities param.2
                pure (mapAssign entities param.1 extractedValue))
              entities
            pure { r with Entities := some entities }
          else
            .ok { r with Entities := some entities } }

/-! ## Definitions used in the statements -/

deriving instance DecidableEq for Except

/-- The keys the struct case of the unwrapper reacts to. -/
def recognisedKey (key : String) : Bool :=
  decide (key = "amount") || decide (key = "unit") || decide (key = "date_time")

/-- First value stored under `key` among the entries `fields`. -/
def fieldLookup (key : String) : List (String × Value) → Option Value
  | [] => none
  | entry :: rest => if entry.1 = key then some entry.2 else fieldLookup key rest

/-- The canonical concatenation of the specification (§4.1): the contribution of
`amount` if present, then that of `unit` if present, then that of `date_time` if
present, whatever the order of the entries. -/
def canonicalConcat (fields : List (String × Value)) : String :=
  (match fieldLookup "amount" fields with
    | some value => FormatFloat value.GetNumberValue 6
    | none => "") ++
  ((match fieldLookup "unit" fields with
    | some value => value.GetStringValue
    | none => "") ++
   (match fieldLookup "date_time" fields with
    | some value => value.GetStringValue
    | none => ""))

/-- Position of a recognised key in the canonical order. -/
def canonicalRank (key : String) : Nat :=
  if key = "amount" then 0 else if key = "unit" then 1 else 2

/-- The entry with key `k` may be visited before the entry with key `k'` in an
iteration that follows the canonical order on the recognised keys. -/
def canonicalBefore (k k' : String) : Bool :=
  !recognisedKey k || !recognisedKey k' || decide (canonicalRank k ≤ canonicalRank k')

/-- The iteration order `fields` visits the recognised keys in the canonical
order amount, unit, date_time. -/
def VisitsCanonically (fields : List (String × Value)) : Prop :=
  fields.Pairwise (fun e e' => canonicalBefore e.1 e'.1 = true)

instance (fields : List (String × Value)) : Decidable (VisitsCanonically fields) := by
  unfold VisitsCanonically; infer_instance

/-- Following first elements of lists from `v` ends in an empty list. -/
def HeadChainEmpty : Value → Prop
  | .listValue [] => True
  | .listValue (first :: _) => HeadChainEmpty first
  | _ => False

/-- The float64 `5.0`. -/
def five : Float64 := ⟨0x4014000000000000⟩

/-- The string the unwrapper returns, `""` where it faults. -/
def unwrappedText (v : Value) : String :=
  match extractDialogflowEntities v with
  | .ok s => s
  | .error _ => ""

/-- The entity map after the parameter loop, when no parameter faults. -/
def collectEntities (params : List (String × Value)) (entities : List (String × String)) :
    List (String × String) :=
  params.foldl (fun entities param => mapAssign entities param.1 (unwrappedText param.2)) entities

/-- The processor that `main` sets up, in front of a remote service that answers
every request with `answer`. -/
def mainProcessor (answer : Except String DetectIntentResponse) : DialogflowProcessor :=
  { projectID := "tutorialchatbot-d4db0"
    authJSONFilePath := "tutorialchatbot-d4db0-0fea9ca7f682.json"
    lang := "en"
    timeZone := "America/Montevideo"
    sessionClient := fun _ => answer }

/-! # Theorems -/

/-! ## The struct loop -/

theorem structStep_of_unrecognised (acc : String) (entry : String × Value)
    (h : recognisedKey entry.1 = false) : structStep acc entry = acc := by
  simp only [recognisedKey, Bool.or_eq_false_iff, decide_eq_false_iff_not] at h
  simp [structStep, h.1.1, h.1.2, h.2]

theorem structStep_amount (acc : String) (value : Value) :
    structStep acc ("amount", value) = acc ++ FormatFloat value.GetNumberValue 6 := by
  simp [structStep]

theorem structStep_unit (acc : String) (value : Value) :
    structStep acc ("unit", value) = acc ++ value.GetStringValue := by
  simp [structStep]

theorem structStep_date_time (acc : String) (value : Value) :
    structStep acc ("date_time", value) = acc ++ value.GetStringValue := by
  simp [structStep]

theorem recognisedKey_cases {key : String} (h : recognisedKey key = true) :
    key = "amount" ∨ key = "unit" ∨ key = "date_time" := by
  simpa [recognisedKey, or_assoc] using h

/-- Each iteration appends to the accumulator. -/
theorem structStep_append (acc : String) (entry : String × Value) :
    structStep acc entry = acc ++ structStep "" entry := by
  obtain ⟨key, value⟩ := entry
  cases hk : recognisedKey key with
  | false => simp [structStep_of_unrecognised _ _ (show recognisedKey (key, value).1 = false from hk)]
  | true =>
    rcases recognisedKey_cases hk with rfl | rfl | rfl
    · simp [structStep_amount]
    · simp [structStep_unit]
    · simp [structStep_date_time]

theorem foldl_structStep_append (acc : String) (fields : List (String × Value)) :
    fields.foldl structStep acc = acc ++ fields.foldl structStep "" := by
  induction fields generalizing acc with
  | nil => simp
  | cons entry rest ih =>
    simp only [List.foldl_cons]
    rw [ih (structStep acc entry), ih (structStep "" entry), structStep_append acc entry,
      String.append_assoc]

theorem foldl_structStep_cons (entry : String × Value) (rest : List (String × Value)) :
    (entry :: rest).foldl structStep "" = structStep "" entry ++ rest.foldl structStep "" := by
  simp only [List.foldl_cons]
  exact foldl_structStep_append _ _

/-- The loop only sees the entries with a recognised key. -/
theorem foldl_structStep_filter (fields : List (String × Value)) :
    fields.foldl structStep "" =
      (fields.filter (fun e => recognisedKey e.1)).foldl structStep "" := by
  induction fields with
  | nil => rfl
  | cons entry rest ih =>
    cases hk : recognisedKey entry.1 with
    | false =>
      rw [List.filter_cons_of_neg (by simp [hk]), foldl_structStep_cons,
        structStep_of_unrecognised _ _ hk, ih]
      simp
    | true =>
      rw [List.filter_cons_of_pos (by simp [hk]), foldl_structStep_cons, foldl_structStep_cons, ih]

/-! ## Lookups and the canonical concatenation -/

theorem fieldLookup_eq_none (key : String) (fields : List (String × Value))
    (h : ∀ e ∈ fields, e.1 ≠ key) : fieldLookup key fields = none := by
  induction fields with
  | nil => rfl
  | cons entry rest ih =>
    have h1 : entry.1 ≠ key := h entry (List.mem_cons_self _ _)
    simp only [fieldLookup, h1, if_false]
    exact ih fun e he => h e (List.mem_cons_of_mem _ he)

theorem fieldLookup_eq_some_iff (key : String) (value : Value)
    (fields : List (String × Value)) (hkeys : (fields.map Prod.fst).Nodup) :
    fieldLookup key fields = some value ↔ (key, value) ∈ fields := by
  induction fields with
  | nil => simp [fieldLookup]
  | cons entry rest ih =>
    obtain ⟨k, v⟩ := entry
    simp only [List.map_cons, List.nodup_cons, List.mem_map, Prod.exists, exists_and_right,
      exists_eq_right, not_exists] at hkeys
    by_cases hk : k = key
    · subst hk
      simp only [fieldLookup, if_true, Option.some.injEq, List.mem_cons, Prod.mk.injEq, true_and]
      constructor
      · intro h; exact Or.inl h.symm
      · rintro (h | h)
        · exact h.symm
        · exact absurd h (hkeys.1 value)
    · simp only [fieldLookup, hk, if_false, List.mem_cons, Prod.mk.injEq]
      rw [ih hkeys.2]
      constructor
      · intro h; exact Or.inr h
      · rintro (h | h)
        · exact absurd h.1.symm hk
        · exact h

/-- The value found under a key does not depend on the order of the entries of a
map. -/
theorem fieldLookup_perm (key : String) {fields order : List (String × Value)}
    (hperm : order.Perm fields) (hkeys : (fields.map Prod.fst).Nodup) :
    fieldLookup key order = fieldLookup key fields := by
  have hkeys' : (order.map Prod.fst).Nodup := (hperm.map Prod.fst).nodup_iff.mpr hkeys
  apply Option.ext
  intro value
  rw [Option.mem_def, Option.mem_def, fieldLookup_eq_some_iff key value order hkeys',
    fieldLookup_eq_some_iff key value fields hkeys, hperm.mem_iff]

/-- The canonical concatenation is a function of the map, not of the order of its
entries. -/
theorem canonicalConcat_perm {fields order : List (String × Value)}
    (hperm : order.Perm fields) (hkeys : (fields.map Prod.fst).Nodup) :
    canonicalConcat order = canonicalConcat fields := by
  simp only [canonicalConcat, fieldLookup_perm _ hperm hkeys]

theorem ne_of_canonicalBefore_unit {key : String} (h : canonicalBefore "unit" key = true) :
    key ≠ "amount" := by
  rintro rfl
  revert h
  decide

theorem ne_of_canonicalBefore_date_time {key : String}
    (h : canonicalBefore "date_time" key = true) : key ≠ "amount" ∧ key ≠ "unit" := by
  constructor <;>
  · rintro rfl
    revert h
    decide

/-- An iteration that visits the recognised keys in canonical order builds the
canonical concatenation. -/
theorem foldl_structStep_canonical (fields : List (String × Value))
    (hkeys : (fields.map Prod.fst).Nodup) (hord : VisitsCanonically fields) :
    fields.foldl structStep "" = canonicalConcat fields := by
  induction fields with
  | nil => rfl
  | cons entry rest ih =>
    obtain ⟨key, value⟩ := entry
    have hfresh : ∀ e ∈ rest, e.1 ≠ key := by
      intro e he heq
      exact (List.nodup_cons.mp hkeys).1 (List.mem_map.mpr ⟨e, he, heq⟩)
    have hrest : (rest.map Prod.fst).Nodup := (List.nodup_cons.mp hkeys).2
    have hbefore : ∀ e ∈ rest, canonicalBefore key e.1 = true :=
      (List.pairwise_cons.mp hord).1
    have hordRest : VisitsCanonically rest := (List.pairwise_cons.mp hord).2
    rw [foldl_structStep_cons, ih hrest hordRest]
    cases hk : recognisedKey key with
    | false =>
      rw [structStep_of_unrecognised _ _ (show recognisedKey (key, value).1 = false from hk)]
      simp only [recognisedKey, Bool.or_eq_false_iff, decide_eq_false_iff_not] at hk
      simp [canonicalConcat, fieldLookup, hk.1.1, hk.1.2, hk.2]
    | true =>
      rcases recognisedKey_cases hk with rfl | rfl | rfl
      · have h1 : fieldLookup "amount" rest = none := fieldLookup_eq_none _ _ hfresh
        simp [structStep_amount, canonicalConcat, fieldLookup, h1]
      · have h1 : fieldLookup "unit" rest = none := fieldLookup_eq_none _ _ hfresh
        have h2 : fieldLookup "amount" rest = none :=
          fieldLookup_eq_none _ _ fun e he => ne_of_canonicalBefore_unit (hbefore e he)
        simp [structStep_unit, canonicalConcat, fieldLookup, h1, h2]
      · have h1 : fieldLookup "date_time" rest = none := fieldLookup_eq_none _ _ hfresh
        have h2 : fieldLookup "amount" rest = none :=
          fieldLookup_eq_none _ _ fun e he => (ne_of_canonicalBefore_date_time (hbefore e he)).1
        have h3 : fieldLookup "unit" rest = none :=
          fieldLookup_eq_none _ _ fun e he => (ne_of_canonicalBefore_date_time (hbefore e he)).2
        simp [structStep_date_time, canonicalConcat, fieldLookup, h1, h2, h3]

/-! ## Where the unwrapper faults -/

/-- The unwrapper faults exactly on the values whose chain of first elements ends
in an empty list, and then with an index out of range. -/
theorem extractDialogflowEntities_error_iff :
    ∀ v : Value, (∃ fault, extractDialogflowEntities v = .error fault) ↔ HeadChainEmpty v
  | .listValue [] => by simp [extractDialogflowEntities, HeadChainEmpty]
  | .listValue (first :: _) => by
    simpa [extractDialogflowEntities, HeadChainEmpty] using
      extractDialogflowEntities_error_iff first
  | .stringValue _ => by simp [extractDialogflowEntities, HeadChainEmpty]
  | .numberValue _ => by simp [extractDialogflowEntities, HeadChainEmpty]
  | .boolValue _ => by simp [extractDialogflowEntities, HeadChainEmpty]
  | .structValue _ => by simp [extractDialogflowEntities, HeadChainEmpty]
  | .nullValue => by simp [extractDialogflowEntities, HeadChainEmpty]
  | .kindNil => by simp [extractDialogflowEntities, HeadChainEmpty]

/-- Away from the empty-list chain the unwrapper returns a string. -/
theorem extractDialogflowEntities_ok (v : Value) (h : ¬ HeadChainEmpty v) :
    extractDialogflowEntities v = .ok (unwrappedText v) := by
  unfold unwrappedText
  cases hv : extractDialogflowEntities v with
  | ok s => rfl
  | error fault => exact absurd ((extractDialogflowEntities_error_iff v).mp ⟨fault, hv⟩) h

/-! ## The entity map -/

theorem mapLookup_mapAssign (m : List (String × String)) (k v k' : String) :
    mapLookup (mapAssign m k v) k' = if k' = k then some v else mapLookup m k' := by
  by_cases h : k' = k
  · subst h
    simp [mapLookup, mapAssign]
  · have h' : ¬ k = k' := fun e => h e.symm
    simp only [mapLookup, mapAssign, h, if_false]
    rw [List.find?_cons_of_neg _ (by simpa using h')]
    congr 1
    induction m with
    | nil => rfl
    | cons e rest ih =>
      by_cases he : e.1 = k
      · have hek' : ¬ e.1 = k' := fun e' => h (e'.symm.trans he)
        rw [List.filter_cons_of_neg (by simpa using he), ih,
          List.find?_cons_of_neg _ (by simpa using hek')]
      · rw [List.filter_cons_of_pos (by simpa using he)]
        by_cases hek' : e.1 = k'
        · rw [List.find?_cons_of_pos _ (by simpa using hek'),
            List.find?_cons_of_pos _ (by simpa using hek')]
        · rw [List.find?_cons_of_neg _ (by simpa using hek'),
            List.find?_cons_of_neg _ (by simpa using hek'), ih]

theorem mem_keys_mapAssign (m : List (String × String)) (k v k' : String) :
    k' ∈ (mapAssign m k v).map Prod.fst ↔ k' = k ∨ k' ∈ m.map Prod.fst := by
  simp only [mapAssign, List.map_cons, List.mem_cons, List.mem_map, List.mem_filter,
    decide_eq_true_eq]
  constructor
  · rintro (h | ⟨e, ⟨he, _⟩, rfl⟩)
    · exact Or.inl h
    · exact Or.inr ⟨e, he, rfl⟩
  · rintro (h | ⟨e, he, rfl⟩)
    · exact Or.inl h
    · by_cases hk : e.1 = k
      · exact Or.inl hk
      · exact Or.inr ⟨e, ⟨he, hk⟩, rfl⟩

theorem nodup_keys_mapAssign (m : List (String × String)) (k v : String)
    (hm : (m.map Prod.fst).Nodup) : ((mapAssign m k v).map Prod.fst).Nodup := by
  simp only [mapAssign, List.map_cons, List.nodup_cons]
  constructor
  · simp [List.mem_map, List.mem_filter]
  · exact (List.filter_sublist m).map Prod.fst |>.nodup hm

theorem foldlM_entities_ok (params : List (String × Value)) (entities : List (String × String))
    (hok : ∀ e ∈ params, ¬ HeadChainEmpty e.2) :
    params.foldlM
      (fun entities param => do
        let extractedValue ← extractDialogflowEntities param.2
        pure (mapAssign entities param.1 extractedValue))
      entities = .ok (collectEntities params entities) := by
  induction params generalizing entities with
  | nil => rfl
  | cons e rest ih =>
    have h1 := extractDialogflowEntities_ok e.2 (hok e (List.mem_cons_self _ _))
    have h2 := ih (mapAssign entities e.1 (unwrappedText e.2))
      (fun e' he' => hok e' (List.mem_cons_of_mem _ he'))
    simp only [List.foldlM_cons, h1, collectEntities, List.foldl_cons]
    exact h2

theorem mem_keys_collectEntities (params : List (String × Value))
    (entities : List (String × String)) (k : String) :
    k ∈ (collectEntities params entities).map Prod.fst ↔
      k ∈ params.map Prod.fst ∨ k ∈ entities.map Prod.fst := by
  induction params generalizing entities with
  | nil => simp [collectEntities]
  | cons e rest ih =>
    have := ih (mapAssign entities e.1 (unwrappedText e.2))
    simp only [collectEntities, List.foldl_cons] at this ⊢
    rw [this, mem_keys_mapAssign]
    simp only [List.map_cons, List.mem_cons]
    tauto

theorem nodup_keys_collectEntities (params : List (String × Value))
    (entities : List (String × String)) (h : (entities.map Prod.fst).Nodup) :
    ((collectEntities params entities).map Prod.fst).Nodup := by
  induction params generalizing entities with
  | nil => simpa [collectEntities] using h
  | cons e rest ih =>
    exact ih (mapAssign entities e.1 (unwrappedText e.2)) (nodup_keys_mapAssign _ _ _ h)

theorem mapLookup_collectEntities_of_not_mem (params : List (String × Value))
    (entities : List (String × String)) (k : String) (hk : k ∉ params.map Prod.fst) :
    mapLookup (collectEntities params entities) k = mapLookup entities k := by
  induction params generalizing entities with
  | nil => rfl
  | cons e rest ih =>
    simp only [List.map_cons, List.mem_cons, not_or] at hk
    have := ih (mapAssign entities e.1 (unwrappedText e.2)) hk.2
    simp only [collectEntities, List.foldl_cons] at this ⊢
    rw [this, mapLookup_mapAssign, if_neg hk.1]

theorem mapLookup_collectEntities (params : List (String × Value))
    (entities : List (String × String)) (hkeys : (params.map Prod.fst).Nodup)
    (k : String) (p : Value) (hp : (k, p) ∈ params) :
    mapLookup (collectEntities params entities) k = some (unwrappedText p) := by
  induction params generalizing entities with
  | nil => cases hp
  | cons e rest ih =>
    have hn := List.nodup_cons.mp hkeys
    rcases List.mem_cons.mp hp with h | h
    · subst h
      have := mapLookup_collectEntities_of_not_mem rest
        (mapAssign entities k (unwrappedText p)) k hn.1
      simp only [collectEntities, List.foldl_cons] at this ⊢
      rw [this, mapLookup_mapAssign, if_pos rfl]
    · exact ih (mapAssign entities e.1 (unwrappedText e.2)) hn.2 h

/-! ## More on the struct loop -/

theorem unrecognised_of_ne {key : String} (h : key ≠ "amount" ∧ key ≠ "unit" ∧ key ≠ "date_time") :
    recognisedKey key = false := by
  simp [recognisedKey, h.1, h.2.1, h.2.2]

theorem foldl_structStep_of_unrecognised (acc : String) (fields : List (String × Value))
    (h : ∀ e ∈ fields, e.1 ≠ "amount" ∧ e.1 ≠ "unit" ∧ e.1 ≠ "date_time") :
    fields.foldl structStep acc = acc := by
  induction fields with
  | nil => rfl
  | cons entry rest ih =>
    rw [List.foldl_cons,
      structStep_of_unrecognised _ _ (unrecognised_of_ne (h entry (List.mem_cons_self _ _)))]
    exact ih fun e he => h e (List.mem_cons_of_mem _ he)

/-- The loop over entries of which only `entry` may have a recognised key. -/
theorem foldl_structStep_single (before after : List (String × Value)) (entry : String × Value)
    (h : ∀ e ∈ before ++ after, e.1 ≠ "amount" ∧ e.1 ≠ "unit" ∧ e.1 ≠ "date_time") :
    (before ++ entry :: after).foldl structStep "" = structStep "" entry := by
  rw [List.foldl_append, List.foldl_cons,
    foldl_structStep_of_unrecognised "" before
      (fun e he => h e (List.mem_append.mpr (Or.inl he))),
    foldl_structStep_of_unrecognised _ after
      (fun e he => h e (List.mem_append.mpr (Or.inr he)))]

set_option exponentiation.threshold 2000 in
theorem FormatFloat_zero : FormatFloat Float64.zero 6 = "0.000000" := by rfl

theorem FormatFloat_five : FormatFloat five 6 = "5.000000" := by rfl

/-- The value 3.0 formats as "3.000000" (§8 of the specification). -/
theorem FormatFloat_three : FormatFloat ⟨0x4008000000000000⟩ 6 = "3.000000" := by rfl

/-- A tie is rounded to even: 1/128 = 0.0078125 formats as "0.007812" and
3/128 = 0.0234375 as "0.023438". -/
theorem FormatFloat_ties :
    FormatFloat ⟨0x3F80000000000000⟩ 6 = "0.007812" ∧
    FormatFloat ⟨0x3F98000000000000⟩ 6 = "0.023438" := by
  constructor <;> rfl

/-- Negative zero keeps its sign and the non-finite values have fixed names. -/
theorem FormatFloat_special :
    FormatFloat ⟨0xC05EDD3A92A30553⟩ 6 = "-123.456700" ∧
    FormatFloat ⟨0x7FF0000000000000⟩ 6 = "+Inf" ∧
    FormatFloat ⟨0xFFF0000000000000⟩ 6 = "-Inf" ∧
    FormatFloat ⟨0x7FF8000000000000⟩ 6 = "NaN" := by
  refine ⟨?_, ?_, ?_, ?_⟩ <;> rfl

theorem GetNumberValue_of_not_number (value : Value) (h : ∀ x, value ≠ .numberValue x) :
    value.GetNumberValue = Float64.zero := by
  cases value <;> first | rfl | exact absurd rfl (h _)

theorem GetStringValue_of_not_string (value : Value) (h : ∀ s, value ≠ .stringValue s) :
    value.GetStringValue = "" := by
  cases value <;> first | rfl | exact absurd rfl (h _)

/-! ## The value unwrapper: theorems -/

/-- C1, the code departs from it: the unwrapper does not return a string for
every value. On the empty list it indexes element 0 and stops with an index out
of range, so it is not a total function into strings. -/
theorem extractDialogflowEntities_not_total :
    ¬ ∀ v : Value, ∃ s : String, extractDialogflowEntities v = .ok s := by
  intro h
  obtain ⟨s, hs⟩ := h (.listValue [])
  simp [extractDialogflowEntities] at hs

/-- C2, the code departs from it: on the empty list value the unwrapper does not
return the empty string, it faults with an index out of range. -/
theorem extractDialogflowEntities_empty_list :
    extractDialogflowEntities (.listValue []) = .error .indexOutOfRange := by
  simp [extractDialogflowEntities]

/-- C3, the code departs from it: the result follows the order in which the
loop visits the entries. The mapping with amount 5.0 and unit "kg" unwraps to
the canonical "5.000000kg" when `amount` is visited first and to "kg5.000000"
when `unit` is visited first, two orders of the same entries, so the result is
not the canonical concatenation whatever the iteration order. -/
theorem extractDialogflowEntities_iteration_order :
    List.Perm [("unit", Value.stringValue "kg"), ("amount", Value.numberValue five)]
      [("amount", Value.numberValue five), ("unit", Value.stringValue "kg")] ∧
    canonicalConcat [("amount", .numberValue five), ("unit", .stringValue "kg")] =
      "5.000000kg" ∧
    canonicalConcat [("unit", .stringValue "kg"), ("amount", .numberValue five)] =
      "5.000000kg" ∧
    extractDialogflowEntities
        (.structValue [("amount", .numberValue five), ("unit", .stringValue "kg")]) =
      .ok "5.000000kg" ∧
    extractDialogflowEntities
        (.structValue [("unit", .stringValue "kg"), ("amount", .numberValue five)]) =
      .ok "kg5.000000" ∧
    extractDialogflowEntities
        (.structValue [("unit", .stringValue "kg"), ("amount", .numberValue five)]) ≠
      .ok (canonicalConcat [("unit", .stringValue "kg"), ("amount", .numberValue five)]) := by
  refine ⟨List.Perm.swap _ _ _, rfl, rfl, rfl, rfl, ?_⟩
  decide

/-- Where the loop does reach the canonical concatenation: for every mapping
(entries `fields`, distinct keys) and every iteration order `order` of its
entries that happens to visit the recognised keys present in the relative order
amount, unit, date_time. -/
theorem struct_canonical_of_visitsCanonically (fields order : List (String × Value))
    (hperm : order.Perm fields) (hkeys : (fields.map Prod.fst).Nodup)
    (hord : VisitsCanonically order) :
    extractDialogflowEntities (.structValue order) = .ok (canonicalConcat fields) := by
  have hkeys' : (order.map Prod.fst).Nodup := (hperm.map Prod.fst).nodup_iff.mpr hkeys
  rw [← canonicalConcat_perm hperm hkeys, ← foldl_structStep_canonical order hkeys' hord]
  simp [extractDialogflowEntities]

/-- C6: for every non-empty list value, the unwrapper gives exactly what it gives
on the first element (a string or a fault); the other elements play no part. -/
theorem extractDialogflowEntities_list_first (first : Value) (rest : List Value) :
    extractDialogflowEntities (.listValue (first :: rest)) = extractDialogflowEntities first := by
  simp [extractDialogflowEntities]

/-- C7: a mapping none of whose keys is "amount", "unit" or "date_time" unwraps
to the empty string, and an entry with another key, wherever the loop meets it,
does not change the result. -/
theorem extractDialogflowEntities_ignores_other_keys :
    (∀ fields : List (String × Value),
      (∀ e ∈ fields, e.1 ≠ "amount" ∧ e.1 ≠ "unit" ∧ e.1 ≠ "date_time") →
      extractDialogflowEntities (.structValue fields) = .ok "") ∧
    (∀ (before after : List (String × Value)) (key : String) (value : Value),
      key ≠ "amount" → key ≠ "unit" → key ≠ "date_time" →
      extractDialogflowEntities (.structValue (before ++ (key, value) :: after)) =
        extractDialogflowEntities (.structValue (before ++ after))) := by
  constructor
  · intro fields h
    simp [extractDialogflowEntities, foldl_structStep_of_unrecognised "" fields h]
  · intro before after key value h1 h2 h3
    simp only [extractDialogflowEntities, List.foldl_append, List.foldl_cons]
    rw [structStep_of_unrecognised _ _
      (show recognisedKey (key, value).1 = false from unrecognised_of_ne ⟨h1, h2, h3⟩)]

/-- Instances of C7: the mapping with the only key "foo" gives "", and the entry
"foo" between amount and unit changes nothing. -/
theorem extractDialogflowEntities_ignores_other_keys_witness :
    extractDialogflowEntities (.structValue [("foo", .stringValue "bar")]) = .ok "" ∧
    extractDialogflowEntities (.structValue
        ([("amount", .numberValue five)] ++
          ("foo", .stringValue "bar") :: [("unit", .stringValue "kg")])) =
      extractDialogflowEntities (.structValue
        ([("amount", .numberValue five)] ++ [("unit", .stringValue "kg")])) :=
  ⟨extractDialogflowEntities_ignores_other_keys.1 [("foo", .stringValue "bar")]
      (by intro e he; simp at he; subst he; decide),
   extractDialogflowEntities_ignores_other_keys.2 [("amount", .numberValue five)]
      [("unit", .stringValue "kg")] "foo" (.stringValue "bar")
      (by decide) (by decide) (by decide)⟩

/-- C8: on a string value the unwrapper returns the string unchanged. -/
theorem extractDialogflowEntities_string (s : String) :
    extractDialogflowEntities (.stringValue s) = .ok s := by
  simp [extractDialogflowEntities]

/-- C10: the values inside a mapping are read with the getters, not unwrapped.
When the only recognised key is "unit" or "date_time" and its value is not a
string the result is the empty string; when it is "amount" and its value is not
a number the result is the formatting of zero, "0.000000". -/
theorem extractDialogflowEntities_struct_not_recursive :
    (∀ (before after : List (String × Value)) (key : String) (value : Value),
      (key = "unit" ∨ key = "date_time") →
      (∀ s, value ≠ .stringValue s) →
      (∀ e ∈ before ++ after, e.1 ≠ "amount" ∧ e.1 ≠ "unit" ∧ e.1 ≠ "date_time") →
      extractDialogflowEntities (.structValue (before ++ (key, value) :: after)) = .ok "") ∧
    (∀ (before after : List (String × Value)) (value : Value),
      (∀ x, value ≠ .numberValue x) →
      (∀ e ∈ before ++ after, e.1 ≠ "amount" ∧ e.1 ≠ "unit" ∧ e.1 ≠ "date_time") →
      extractDialogflowEntities (.structValue (before ++ ("amount", value) :: after)) =
        .ok "0.000000") := by
  constructor
  · intro before after key value hkey hvalue hothers
    simp only [extractDialogflowEntities]
    rw [foldl_structStep_single before after (key, value) hothers]
    rcases hkey with rfl | rfl
    · rw [structStep_unit, GetStringValue_of_not_string value hvalue]; rfl
    · rw [structStep_date_time, GetStringValue_of_not_string value hvalue]; rfl
  · intro before after value hvalue hothers
    simp only [extractDialogflowEntities]
    rw [foldl_structStep_single before after ("amount", value) hothers, structStep_amount,
      GetNumberValue_of_not_number value hvalue, FormatFloat_zero]
    rfl

/-- Instances of C10: under "unit" the list ["kg"], which unwraps to "kg" on its
own, contributes nothing; under "amount" the string "7" contributes
"0.000000". -/
theorem extractDialogflowEntities_struct_not_recursive_witness :
    extractDialogflowEntities (.listValue [.stringValue "kg"]) = .ok "kg" ∧
    extractDialogflowEntities (.structValue
        ([("foo", .stringValue "bar")] ++
          ("unit", .listValue [.stringValue "kg"]) :: [])) = .ok "" ∧
    extractDialogflowEntities (.structValue
        ([] ++ ("amount", .stringValue "7") :: [("foo", .stringValue "bar")])) =
      .ok "0.000000" :=
  ⟨rfl,
   extractDialogflowEntities_struct_not_recursive.1 [("foo", .stringValue "bar")] [] "unit"
      (.listValue [.stringValue "kg"]) (Or.inl rfl) (by intro s h; cases h)
      (by intro e he; simp at he; subst he; decide),
   extractDialogflowEntities_struct_not_recursive.2 [] [("foo", .stringValue "bar")]
      (.stringValue "7") (by intro x h; cases h)
      (by intro e he; simp at he; subst he; decide)⟩

/-! ## The request processor: theorems -/

/-- The response of `processNLP` to a detection result none of whose parameters
makes the unwrapper fault. -/
theorem processNLP_result (dp : DialogflowProcessor) (rawMessage username : String)
    (response : DetectIntentResponse) (queryResult : QueryResult)
    (hresp : dp.sessionClient (processNLP dp rawMessage username).request = .ok response)
    (hqr : response.QueryResult = some queryResult)
    (hok : ∀ e ∈ GetFields queryResult.Parameters, ¬ HeadChainEmpty e.2) :
    (processNLP dp rawMessage username).result = .ok
      { Intent := match queryResult.Intent with
          | some intent => intent.DisplayName
          | none => ""
        Confidence := match queryResult.Intent with
          | some _ => queryResult.IntentDetectionConfidence
          | none => Float32.zero
        Entities := some (collectEntities (GetFields queryResult.Parameters) []) } := by
  simp only [processNLP] at hresp ⊢
  rw [hresp]
  simp only [hqr]
  split
  · rw [foldlM_entities_ok _ _ hok]
    cases queryResult.Intent <;> rfl
  · rename_i hlen
    have hnil : GetFields queryResult.Parameters = [] := by
      cases h : GetFields queryResult.Parameters with
      | nil => rfl
      | cons e rest => simp [h] at hlen
    rw [hnil]
    cases queryResult.Intent <;> rfl

/-- The entity map of that response: one entry per parameter key and no other,
each holding what the unwrapper returns for the parameter. -/
theorem processNLP_entities (dp : DialogflowProcessor) (rawMessage username : String)
    (response : DetectIntentResponse) (queryResult : QueryResult)
    (hresp : dp.sessionClient (processNLP dp rawMessage username).request = .ok response)
    (hqr : response.QueryResult = some queryResult)
    (hkeys : ((GetFields queryResult.Parameters).map Prod.fst).Nodup)
    (hok : ∀ e ∈ GetFields queryResult.Parameters, ¬ HeadChainEmpty e.2) :
    ∃ r entities, (processNLP dp rawMessage username).result = .ok r ∧
      r.Entities = some entities ∧
      (entities.map Prod.fst).Nodup ∧
      (∀ k, k ∈ entities.map Prod.fst ↔ k ∈ (GetFields queryResult.Parameters).map Prod.fst) ∧
      (∀ k p, (k, p) ∈ GetFields queryResult.Parameters →
        ∃ s, extractDialogflowEntities p = .ok s ∧ mapLookup entities k = some s) := by
  refine ⟨_, _, processNLP_result dp rawMessage username response queryResult hresp hqr hok,
    rfl, nodup_keys_collectEntities _ _ List.nodup_nil, ?_, ?_⟩
  · intro k
    rw [mem_keys_collectEntities]
    simp
  · intro k p hp
    exact ⟨unwrappedText p, extractDialogflowEntities_ok p (hok (k, p) hp),
      mapLookup_collectEntities _ _ hkeys k p hp⟩

/-- C4, the code departs from it: for a detection result with the parameter
"items" holding the empty list, `processNLP` returns no response at all, it
stops in the unwrapper with an index out of range. -/
theorem processNLP_empty_list_parameter :
    (processNLP
      (mainProcessor (.ok ⟨some
        { Intent := some ⟨"order"⟩
          IntentDetectionConfidence := ⟨0x3F5EB852⟩
          Parameters := some [("items", .listValue [])] }⟩))
      "hello" "testUser").result = .error .indexOutOfRange := by
  rfl

/-- C5, the code departs from it: for a response without intent whose parameter
"items" holds the empty list, `processNLP` returns no response (so none with
empty Intent and zero Confidence), it stops with an index out of range. -/
theorem processNLP_no_intent_empty_list_parameter :
    (processNLP
      (mainProcessor (.ok ⟨some
        { Intent := none
          IntentDetectionConfidence := ⟨0x3F5EB852⟩
          Parameters := some [("items", .listValue [])] }⟩))
      "hello" "testUser").result = .error .indexOutOfRange := by
  rfl

/-- C9: the request `processNLP` passes to the remote service has the session
path "projects/" ++ projectID ++ "/agent/sessions/" ++ user id, the raw message
as input text, and the configured language code and time zone. -/
theorem processNLP_request (dp : DialogflowProcessor) (rawMessage username : String) :
    (processNLP dp rawMessage username).request =
      { Session := "projects/" ++ dp.projectID ++ "/agent/sessions/" ++ username
        Text := rawMessage
        LanguageCode := dp.lang
        TimeZone := dp.timeZone } := by
  rfl

end Dialogflow
